import Mathlib

/-!
Verification of the pythae network builders (src/pythae/models/nn/default_architectures.py)
and of the model persistence / training lifecycle described by the design spec.

Tensors are abstracted: a layer of a network is an arbitrary function on the
tensor carrier type, since the claims under study concern which layers run,
which keys appear in the structured output, and which exceptions are raised,
never the numerical content of a layer.  Structured outputs (the ModelOutput
dict of the source) are association lists in insertion order.
-/

/-- Python exceptions that the embedded code can raise. -/
inductive PyErr where
  | nameError
  | assertionError
  | attributeError
  | typeError
  | fileNotFoundError (filename : String)
  | keyError (k : String)
deriving DecidableEq

/-- `Encoder_AE_MLP`: one hidden block (`Linear + ReLU`), stored in `layers`
(`depth = layers.length`), a final `embedding` linear head, and the input
reshape `x.reshape(-1, np.prod(input_dim))`. -/
structure Encoder_AE_MLP (α : Type) where
  layers : List (α → α)
  embedding : α → α
  reshape : α → α

def Encoder_AE_MLP.depth {α : Type} (e : Encoder_AE_MLP α) : ℕ := e.layers.length

/-- The `for i in range(self.depth)` loop of the encoder forward pass: applies each
layer in turn, recording the activation after layer `i` under key
`embedding_layer_(i+1)` when `i+1` is a requested level. -/
def encoderLoop {α : Type} (lvls : Option (List Int)) :
    ℕ → List (α → α) → α → List (String × α) → α × List (String × α)
  | _, [], out, acc => (out, acc)
  | i, f :: fs, out, acc =>
      let out2 := f out
      let acc2 :=
        match lvls with
        | some ls => if ((i + 1 : ℕ) : Int) ∈ ls
            then acc ++ [("embedding_layer_" ++ Nat.repr (i + 1), out2)] else acc
        | none => acc
      encoderLoop lvls (i + 1) fs out2 acc2

/-- `Encoder_AE_MLP.forward`.  When `output_layer_levels` is not `None` the source
executes `assert all(self.depth >= levels > 0)`: the name `levels` is not bound
anywhere (no generator clause), so evaluating the assert condition raises
`NameError` before any layer runs.  When it is `None`, the input is reshaped,
the layer stack runs, and the terminal key `embedding` is appended. -/
def Encoder_AE_MLP.forward {α : Type} (e : Encoder_AE_MLP α) (x : α)
    (output_layer_levels : Option (List Int)) : Except PyErr (List (String × α)) :=
  match output_layer_levels with
  | some _ => .error .nameError
  | none =>
      let r := encoderLoop none 0 e.layers (e.reshape x) []
      .ok (r.2 ++ [("embedding", e.embedding r.1)])

/-- `Decoder_AE_MLP`: two blocks in `layers` (`Linear+ReLU`, `Linear+Sigmoid`),
and the output reshape `out.reshape((z.shape[0],) + self.input_dim)`. -/
structure Decoder_AE_MLP (α : Type) where
  layers : List (α → α)
  reshape_out : α → α

def Decoder_AE_MLP.depth {α : Type} (d : Decoder_AE_MLP α) : ℕ := d.layers.length

/-- The decoder forward loop, identical to the encoder loop except for the
`reconstruction_layer_(i+1)` key. -/
def decoderLoop {α : Type} (lvls : Option (List Int)) :
    ℕ → List (α → α) → α → List (String × α) → α × List (String × α)
  | _, [], out, acc => (out, acc)
  | i, f :: fs, out, acc =>
      let out2 := f out
      let acc2 :=
        match lvls with
        | some ls => if ((i + 1 : ℕ) : Int) ∈ ls
            then acc ++ [("reconstruction_layer_" ++ Nat.repr (i + 1), out2)] else acc
        | none => acc
      decoderLoop lvls (i + 1) fs out2 acc2

/-- `Decoder_AE_MLP.forward`: same unbound-name assert as the encoder
(raises `NameError` whenever `output_layer_levels` is not `None`), otherwise runs
the stack on `z` and appends the `reconstruction` key. -/
def Decoder_AE_MLP.forward {α : Type} (d : Decoder_AE_MLP α) (z : α)
    (output_layer_levels : Option (List Int)) : Except PyErr (List (String × α)) :=
  match output_layer_levels with
  | some _ => .error .nameError
  | none =>
      let r := decoderLoop none 0 d.layers z []
      .ok (r.2 ++ [("reconstruction", d.reshape_out r.1)])

/-- `LayeredDiscriminator_MLP`: three blocks in `layers`; `depth` is the number of
layers (set by `BaseLayeredDiscriminator.__init__`, which per the spec records the
fixed depth of the stack); `reshape` is `x.reshape(x.shape[0], -1)`. -/
structure LayeredDiscriminator_MLP (α : Type) where
  layers : List (α → α)
  reshape : α → α

def LayeredDiscriminator_MLP.depth {α : Type} (d : LayeredDiscriminator_MLP α) : ℕ :=
  d.layers.length

/-- The discriminator forward loop: applies layer `i`, then executes
`if i == output_layer_level: break`.  Comparison of the running index `i` with a
`None` level is `False` in Python, so `none` never breaks. -/
def discLoop {α : Type} (lvl : Option Int) : ℕ → List (α → α) → α → α
  | _, [], x => x
  | i, f :: fs, x =>
      let x2 := f x
      if some ((i : ℕ) : Int) = lvl then x2 else discLoop lvl (i + 1) fs x2

/-- `LayeredDiscriminator_MLP.forward`: asserts `output_layer_level <= self.depth`
(no lower bound!), reshapes, runs the loop, and returns the single key
`adversarial_cost`. -/
def LayeredDiscriminator_MLP.forward {α : Type} (d : LayeredDiscriminator_MLP α) (x : α)
    (output_layer_level : Option Int) : Except PyErr (List (String × α)) :=
  match output_layer_level with
  | some l =>
      if l ≤ (d.depth : Int) then
        .ok [("adversarial_cost", discLoop (some l) 0 d.layers (d.reshape x))]
      else .error .assertionError
  | none => .ok [("adversarial_cost", discLoop none 0 d.layers (d.reshape x))]

/-- Composition of the first `k` layers of a stack (all of them when `k` exceeds
the depth), used to state what the early-exit forward actually computes. -/
def applyFirst {α : Type} (k : ℕ) (fs : List (α → α)) (x : α) : α :=
  (fs.take k).foldl (fun a f => f a) x

instance {ε α : Type} [DecidableEq ε] [DecidableEq α] : DecidableEq (Except ε α) :=
  fun a b =>
    match a, b with
    | .error e1, .error e2 =>
        if h : e1 = e2 then .isTrue (by rw [h])
        else .isFalse (by intro hc; injection hc with h2; exact h h2)
    | .error _, .ok _ => .isFalse (by intro hc; exact Except.noConfusion hc)
    | .ok _, .error _ => .isFalse (by intro hc; exact Except.noConfusion hc)
    | .ok a1, .ok a2 =>
        if h : a1 = a2 then .isTrue (by rw [h])
        else .isFalse (by intro hc; injection hc with h2; exact h h2)

/-- A concrete three-layer discriminator over `Int` used for concrete evaluations. -/
def cDisc : LayeredDiscriminator_MLP Int :=
  { layers := [fun x => x + 1, fun x => x * 2, fun x => x + 5], reshape := id }

/-- A concrete depth-1 encoder over `Int` used for concrete evaluations. -/
def cEnc : Encoder_AE_MLP Int :=
  { layers := [fun x => x + 1], embedding := fun x => x * 3, reshape := id }

/-- A concrete depth-2 decoder over `Int` used for concrete evaluations. -/
def cDec : Decoder_AE_MLP Int :=
  { layers := [fun x => x + 1, fun x => x * 2], reshape_out := id }

/-- `torch.tril_indices(row=n, col=n, offset=-1)`: the positions `(i, j)` with
`j < i < n`, ordered row by row and then column by column, exactly the order torch
returns them in. -/
def tril_indices (n : ℕ) : List (ℕ × ℕ) :=
  (List.range n).flatMap (fun i => (List.range i).map (fun j => (i, j)))

/-- The batched advanced-indexing assignment `L[:, idx0, idx1] = vals` of the source:
starting from matrix `M`, write `vals b m` at position `(r, c)` for the `m`-th index
pair `(r, c)`, in order; `m` is the running position in the value tensor. -/
def scatterAssign {α : Type} (vals : ℕ → ℕ → α) :
    List (ℕ × ℕ) → ℕ → (ℕ → ℕ → ℕ → α) → ℕ → ℕ → ℕ → α
  | [], _, M => M
  | (r, c) :: rest, m, M =>
      scatterAssign vals rest (m + 1)
        (fun b i j => if i = r ∧ j = c then vals b m else M b i j)

/-- `torch.diag_embed` applied to a batch of vectors of length `n`. -/
def diag_embed {α : Type} [Zero α] (n : ℕ) (v : ℕ → ℕ → α) : ℕ → ℕ → ℕ → α :=
  fun b i j => if i = j ∧ i < n then v b i else 0

/-- The matrix `L` computed by `Metric_MLP.forward` from the learned head outputs:
`h21 b` is the diagonal head output (`self.diag`, length `latent_dim`) of batch item
`b` and `h22 b` its off-diagonal head output (`self.lower`, length
`latent_dim*(latent_dim-1)/2`).  As in the source, `L` starts as zeros, receives
`h22` at the `tril_indices(latent_dim, latent_dim, offset=-1)` positions, and then
`torch.diag_embed(h21.exp())` is added. -/
noncomputable def Metric_MLP_L (latent_dim : ℕ) (h21 h22 : ℕ → ℕ → ℝ) :
    ℕ → ℕ → ℕ → ℝ :=
  fun b i j =>
    scatterAssign h22 (tril_indices latent_dim) 0 (fun _ _ _ => 0) b i j
      + diag_embed latent_dim (fun b2 i2 => Real.exp (h21 b2 i2)) b i j

/-- Configuration object handed to the default-architecture builders: the fields
`input_dim` (optional shape tuple, `None` when unset) and `latent_dim`, as read by
the source. -/
structure NNArgs where
  input_dim : Option (List ℕ)
  latent_dim : ℕ
deriving DecidableEq

/-- The module data recorded by a successful `Metric_MLP.__init__`: the stored
dimensions and the widths of the hidden layer and of the two heads. -/
structure Metric_MLP where
  input_dim : List ℕ
  latent_dim : ℕ
  layers_in : ℕ
  diag_out : ℕ
  lower_out : ℕ
deriving DecidableEq

/-- `Metric_MLP.__init__`: raises `AttributeError` (the "No input dimension
provided !" configuration error) when `args.input_dim is None`, before any layer is
constructed; otherwise builds the hidden layer on `np.prod(input_dim)` inputs, the
`diag` head with `latent_dim` outputs and the `lower` head with
`int(latent_dim*(latent_dim-1)/2)` outputs. -/
def Metric_MLP_init (args : NNArgs) : Except PyErr Metric_MLP :=
  match args.input_dim with
  | none => .error .attributeError
  | some d =>
      .ok { input_dim := d, latent_dim := args.latent_dim, layers_in := d.prod,
            diag_out := args.latent_dim,
            lower_out := args.latent_dim * (args.latent_dim - 1) / 2 }

/-- The module data recorded by a successful `Encoder_AE_MLP.__init__`. -/
structure Encoder_AE_MLP_built where
  input_dim : List ℕ
  latent_dim : ℕ
  first_in : ℕ
deriving DecidableEq

/-- `Encoder_AE_MLP.__init__` performs no validation of `input_dim`: with
`input_dim = None` it reaches `nn.Linear(np.prod(args.input_dim), 512)`, where
`np.prod(None)` evaluates to `None` and the framework rejects the non-integer layer
size with `TypeError` (framework behaviour, modelled here).  So construction fails
with `TypeError` raised inside the first layer construction, not with the
configuration `AttributeError`. -/
def Encoder_AE_MLP_init (args : NNArgs) : Except PyErr Encoder_AE_MLP_built :=
  match args.input_dim with
  | none => .error .typeError
  | some d => .ok { input_dim := d, latent_dim := args.latent_dim, first_in := d.prod }

/-- The module data recorded by a successful `Decoder_AE_MLP.__init__`: its first
layer consumes `latent_dim`, its second produces `int(np.prod(input_dim))`. -/
structure Decoder_AE_MLP_built where
  input_dim : List ℕ
  first_in : ℕ
  second_out : ℕ
deriving DecidableEq

/-- `Decoder_AE_MLP.__init__` performs no validation of `input_dim` either: its
first layer `nn.Linear(args.latent_dim, 512)` is built successfully, and failure
only occurs at the second layer, where `int(np.prod(args.input_dim))` is
`int(None)` and raises `TypeError` (framework behaviour, modelled here).  So with
`input_dim = None` construction fails with `TypeError` raised during layer
construction, not with the configuration `AttributeError`; the exception
propagates out of `__init__`, so no network object is produced. -/
def Decoder_AE_MLP_init (args : NNArgs) : Except PyErr Decoder_AE_MLP_built :=
  match args.input_dim with
  | none => .error .typeError
  | some d => .ok { input_dim := d, first_in := args.latent_dim, second_out := d.prod }

/-! The PixelCNN model class, the `BaseTrainer` and the `TrainingPipeline` are not
part of the source sample (only their tests are), so the persistence and training
lifecycle below is modelled from the spec.  A weight tensor is a list of rationals;
the tests' bit-identical weight comparison becomes equality. -/

/-- A model state dict: named weight tensors in order. -/
abbrev StateDict : Type := List (String × List ℚ)

/-- Modelled from the spec: the `PixelCNNConfig` fields exercised by the tests —
`input_dim` (`None` when unset), `n_layers`, `kernel_size`, `n_embeddings`. -/
structure PixelCNNConfig where
  input_dim : Option (List ℕ)
  n_layers : ℕ
  kernel_size : ℕ
  n_embeddings : ℕ
deriving DecidableEq

/-- Modelled from the spec: a model is its configuration plus its weight state. -/
structure PModel where
  model_config : PixelCNNConfig
  state_dict : StateDict
deriving DecidableEq

/-- The module data recorded by a successful PixelCNN construction. -/
structure PixelCNN_built where
  input_dim : List ℕ
  n_layers : ℕ
deriving DecidableEq

/-- Modelled from the spec: the PixelCNN model class is not in the source sample;
per the spec's error taxonomy ("required field missing — raised at construction")
and its tests (`test_raises_no_input_output_dim` expects `AttributeError`),
constructing PixelCNN from a configuration with `input_dim` unset fails
immediately with the configuration `AttributeError`, before any layer is built. -/
def PixelCNN_init (cfg : PixelCNNConfig) : Except PyErr PixelCNN_built :=
  match cfg.input_dim with
  | none => .error .attributeError
  | some d => .ok { input_dim := d, n_layers := cfg.n_layers }

/-- Modelled from the spec: the `BaseTrainerConfig` fields that drive the trainer. -/
structure BaseTrainerConfig where
  num_epochs : ℕ
  steps_saving : ℕ
  learning_rate : ℚ
deriving DecidableEq

/-- Contents of one persisted file: a `torch.save`d dictionary of state dicts
(`model.pt`), a serialized model or training configuration, or the persisted
optimizer state (the claims only depend on the presence of `optimizer.pt`, so the
state is reduced to the learning rate of its param group). -/
inductive FileData where
  | ptDict (entries : List (String × StateDict))
  | modelJson (cfg : PixelCNNConfig)
  | trainingJson (cfg : BaseTrainerConfig)
  | optimizerPt (lr : ℚ)
deriving DecidableEq

/-- A persisted directory: file names with contents, in creation order. -/
abbrev Dir : Type := List (String × FileData)

/-- Lookup by string key in an association list (file in a directory, entry in a
saved dictionary). -/
def lookupKey {β : Type} : List (String × β) → String → Option β
  | [], _ => none
  | (k, v) :: rest, name => if k = name then some v else lookupKey rest name

/-- Modelled from the spec: `Model.save(dir_path)` writes exactly the serialized
configuration `model_config.json` and the weights file `model.pt`, the latter
holding the state dict under the top-level key `model_state_dict`. -/
def PModel.save (m : PModel) : Dir :=
  [("model_config.json", .modelJson m.model_config),
   ("model.pt", .ptDict [("model_state_dict", m.state_dict)])]

/-- Modelled from the spec: `Model.load_from_folder(dir_path)` requires
`model_config.json` and `model.pt` to exist, raising `FileNotFoundError` naming the
missing file (the configuration file is checked first); requires the weights
dictionary to hold the `model_state_dict` key, raising `KeyError` otherwise; and
rebuilds the model from exactly those two files. -/
def load_from_folder (d : Dir) : Except PyErr PModel :=
  match lookupKey d "model_config.json" with
  | none => .error (.fileNotFoundError "model_config.json")
  | some fc =>
      match lookupKey d "model.pt" with
      | none => .error (.fileNotFoundError "model.pt")
      | some fw =>
          match fc, fw with
          | .modelJson cfg, .ptDict entries =>
              match lookupKey entries "model_state_dict" with
              | none => .error (.keyError "model_state_dict")
              | some sd => .ok { model_config := cfg, state_dict := sd }
          | _, _ => .error .typeError

/-- Modelled from the spec: the trainer's numerical collaborators — the gradient of
the training loss at the current weights, the evaluation loss, and the learning
rate.  The optimizer update is plain gradient descent. -/
structure SpecTrainer where
  gradFn : StateDict → StateDict
  evalLoss : StateDict → ℚ
  lr : ℚ

/-- Modelled from the spec: one training step — forward pass, backpropagation, and
the in-place optimizer update `w := w - lr * grad(w)`, entry by entry. -/
def SpecTrainer.train_step (t : SpecTrainer) (w : StateDict) : StateDict :=
  List.zipWith (fun p g => (p.1, List.zipWith (fun a gv => a - t.lr * gv) p.2 g.2))
    w (t.gradFn w)

/-- Modelled from the spec: one evaluation step — the same forward pass computing
the loss, with no gradient update: the weights are returned untouched. -/
def SpecTrainer.eval_step (t : SpecTrainer) (w : StateDict) : ℚ × StateDict :=
  (t.evalLoss w, w)

/-- A directory name inside the training output directory, as a structured key
(`render` gives the string the trainer uses). -/
inductive DirName where
  | checkpoint (epoch : ℕ)
  | finalModel
deriving DecidableEq

/-- The string rendering of a training output directory name. -/
def DirName.render : DirName → String
  | .checkpoint n => "checkpoint_epoch_" ++ Nat.repr n
  | .finalModel => "final_model"

/-- Lookup of a persisted directory by name. -/
def findDir : List (DirName × Dir) → DirName → Option Dir
  | [], _ => none
  | (k2, d) :: rest, k => if k2 = k then some d else findDir rest k

/-- Modelled from the spec: a `checkpoint_epoch_N` directory holds the current
weights, the optimizer state and the training configuration. -/
def ckptDir (cfg : BaseTrainerConfig) (t : SpecTrainer) (w : StateDict) : Dir :=
  [("model.pt", .ptDict [("model_state_dict", w)]),
   ("optimizer.pt", .optimizerPt t.lr),
   ("training_config.json", .trainingJson cfg)]

/-- Modelled from the spec: the `final_model` directory holds the best model's
weights, the model configuration and the training configuration — and no
optimizer state. -/
def finalDir (cfg : BaseTrainerConfig) (mcfg : PixelCNNConfig) (w : StateDict) : Dir :=
  [("model.pt", .ptDict [("model_state_dict", w)]),
   ("model_config.json", .modelJson mcfg),
   ("training_config.json", .trainingJson cfg)]

/-- The running state of a training run: current weights, best
(evaluation loss, weights) seen so far, and the directories persisted so far. -/
structure RunState where
  weights : StateDict
  best : Option (ℚ × StateDict)
  dirs : List (DirName × Dir)

/-- Modelled from the spec: one epoch of the training state machine —
training (one optimizer update), evaluating (compute the evaluation loss and
update the best-model reference when the loss strictly improves), then
checkpointing when the epoch number is a multiple of `steps_saving`. -/
def runEpoch (t : SpecTrainer) (cfg : BaseTrainerConfig) (s : RunState) (epoch : ℕ) :
    RunState :=
  let w := t.train_step s.weights
  let loss := (t.eval_step w).1
  let best :=
    match s.best with
    | none => some (loss, w)
    | some b => if loss < b.1 then some (loss, w) else some b
  let dirs :=
    if epoch % cfg.steps_saving = 0 then s.dirs ++ [(.checkpoint epoch, ckptDir cfg t w)]
    else s.dirs
  { weights := w, best := best, dirs := dirs }

/-- Modelled from the spec: a full training run over epochs `1 .. num_epochs`,
ending with the persistence of the best-seen model under `final_model` (the
initial weights when no epoch ran). -/
def BaseTrainer_train (t : SpecTrainer) (cfg : BaseTrainerConfig)
    (mcfg : PixelCNNConfig) (w0 : StateDict) : RunState :=
  let s := (List.range' 1 cfg.num_epochs).foldl (runEpoch t cfg)
    { weights := w0, best := none, dirs := [] }
  let bw :=
    match s.best with
    | some b => b.2
    | none => s.weights
  { s with dirs := s.dirs ++ [(.finalModel, finalDir cfg mcfg bw)] }

/-- Specification of the checkpoint directories a run over the given epochs emits,
starting from weights `w`: used to characterise the fold in `BaseTrainer_train`. -/
def mkCkpts (t : SpecTrainer) (cfg : BaseTrainerConfig) :
    List ℕ → StateDict → List (DirName × Dir)
  | [], _ => []
  | e :: es, w =>
      (if e % cfg.steps_saving = 0
        then [(DirName.checkpoint e, ckptDir cfg t (t.train_step w))] else [])
        ++ mkCkpts t cfg es (t.train_step w)

/-- The (evaluation loss, weights) pairs observed along a run over the given
epochs, starting from weights `w`. -/
def runPairs (t : SpecTrainer) : List ℕ → StateDict → List (ℚ × StateDict)
  | [], _ => []
  | _ :: es, w =>
      (t.evalLoss (t.train_step w), t.train_step w) :: runPairs t es (t.train_step w)

/-- The best-model fold: keep the pair with the strictly smallest loss seen. -/
def bestFold : Option (ℚ × StateDict) → List (ℚ × StateDict) → Option (ℚ × StateDict)
  | b, [] => b
  | b, p :: ps =>
      bestFold
        (match b with
          | none => some p
          | some b0 => if p.1 < b0.1 then some p else some b0) ps

/-- A concrete trainer (constant gradient 1 on one weight tensor, learning rate 1)
used for concrete evaluations. -/
def cTrainer : SpecTrainer :=
  { gradFn := fun _ => [("weight", [1])], evalLoss := fun _ => 0, lr := 1 }

/-- A concrete training configuration used for concrete evaluations. -/
def cCfg : BaseTrainerConfig := { num_epochs := 3, steps_saving := 2, learning_rate := 1 }

/-- A concrete model configuration used for concrete evaluations. -/
def cMCfg : PixelCNNConfig :=
  { input_dim := some [1, 28, 28], n_layers := 10, kernel_size := 7, n_embeddings := 256 }

/-- Concrete initial weights used for concrete evaluations. -/
def cW0 : StateDict := [("weight", [0])]

/-! ## Theorems -/

lemma discLoop_none {α : Type} (fs : List (α → α)) (i : ℕ) (x : α) :
    discLoop none i fs x = fs.foldl (fun a f => f a) x := by
  induction fs generalizing i x with
  | nil => rfl
  | cons f fs ih => simp [discLoop, ih]

lemma discLoop_lt {α : Type} (fs : List (α → α)) (l : Int) (i : ℕ) (x : α)
    (h : l < (i : Int)) : discLoop (some l) i fs x = fs.foldl (fun a f => f a) x := by
  induction fs generalizing i x with
  | nil => rfl
  | cons f fs ih =>
      have hne : ¬ some ((i : ℕ) : Int) = some l := by
        intro hc
        simp at hc
        omega
      simp only [discLoop, hne, if_false]
      exact ih (i + 1) (f x) (by push_cast; omega)

lemma discLoop_le {α : Type} (fs : List (α → α)) (l : Int) (hl : 0 ≤ l) (i : ℕ) (x : α)
    (hi : i ≤ l.toNat) :
    discLoop (some l) i fs x = applyFirst (l.toNat - i + 1) fs x := by
  induction fs generalizing i x with
  | nil => rfl
  | cons f fs ih =>
      by_cases hc : ((i : ℕ) : Int) = l
      · have hti : l.toNat = i := by omega
        simp [discLoop, hc, applyFirst, hti]
      · have hlt : i < l.toNat := by omega
        have hne : ¬ some ((i : ℕ) : Int) = some l := by simpa using hc
        simp only [discLoop, hne, if_false]
        rw [ih (i + 1) (f x) (by omega)]
        have harith : l.toNat - (i + 1) + 1 = l.toNat - i := by omega
        have htake : l.toNat - i + 1 = (l.toNat - i) + 1 := rfl
        simp only [applyFirst, harith, htake, List.take_succ_cons, List.foldl_cons]

lemma applyFirst_length {α : Type} (fs : List (α → α)) (x : α) :
    applyFirst fs.length fs x = fs.foldl (fun a f => f a) x := by
  simp [applyFirst]

/-- C1 (code evaluation): every encoder/decoder forward call that requests any set of
intermediate layer levels raises `NameError` — the validation assert references the
unbound name `levels` — so, contrary to the claim, a valid non-empty request such as
level 1 on a depth-1 encoder does not succeed (and an invalid request such as level 2
raises `NameError`, not the validation `AssertionError`). -/
theorem C1_forward_levels_nameError :
    (∀ (α : Type) (e : Encoder_AE_MLP α) (x : α) (lvls : List Int),
        e.forward x (some lvls) = .error .nameError)
  ∧ (∀ (α : Type) (d : Decoder_AE_MLP α) (z : α) (lvls : List Int),
        d.forward z (some lvls) = .error .nameError)
  ∧ cEnc.forward 0 (some [1]) = .error .nameError
  ∧ cDec.forward 0 (some [1, 2]) = .error .nameError
  ∧ cEnc.forward 0 (some [2]) = .error .nameError :=
  ⟨fun _ _ _ _ => rfl, fun _ _ _ _ => rfl, rfl, rfl, rfl⟩

/-- C2 (counterexample): on the concrete three-layer discriminator, requesting
`output_layer_level = 1` (which is in `(0, depth]`) yields the composition of the
first TWO layers ((0 + 1) * 2 = 2), not of the first one layer (0 + 1 = 1): the loop
breaks only after the layer with zero-based index 1 has been applied. -/
theorem C2_first_k_layers_counterexample :
    cDisc.forward 0 (some 1)
      ≠ .ok [("adversarial_cost", applyFirst 1 cDisc.layers (cDisc.reshape 0))] := by
  decide

/-- C2 (amended): for a requested layer index `l > 0`, the layered discriminator
forward call returns, under the key `adversarial_cost`, the composition of the first
`l + 1` layers (all layers when `l + 1` exceeds the depth, in particular all layers
when `l = depth`) applied to the reshaped input, and raises the validation
`AssertionError` when `l > depth`. -/
theorem C2_amended_early_exit {α : Type} (d : LayeredDiscriminator_MLP α) (x : α)
    (l : Int) (hl : 0 < l) :
    d.forward x (some l) =
      if l ≤ (d.depth : Int) then
        .ok [("adversarial_cost", applyFirst (l.toNat + 1) d.layers (d.reshape x))]
      else .error .assertionError := by
  by_cases h : l ≤ (d.depth : Int)
  · simp only [LayeredDiscriminator_MLP.forward, h, if_true]
    rw [discLoop_le d.layers l (by omega) 0 (d.reshape x) (by omega)]
    simp
  · simp [LayeredDiscriminator_MLP.forward, h]

/-- Witness for C2 (amended) at the concrete discriminator with level 1. -/
theorem C2_amended_early_exit_witness :
    cDisc.forward 0 (some 1) =
      if (1 : Int) ≤ (cDisc.depth : Int) then
        .ok [("adversarial_cost", applyFirst ((1 : Int).toNat + 1) cDisc.layers (cDisc.reshape 0))]
      else .error .assertionError :=
  C2_amended_early_exit cDisc 0 1 (by decide)

/-- C10: the layered discriminator forward call validates only the upper bound of the
requested level: for `l ≤ depth` it always succeeds and returns `adversarial_cost`
(a negative `l` silently runs the full stack; `l = 0` stops after the first layer,
since `applyFirst (0 + 1)` applies exactly one layer), while `l > depth` raises the
validation `AssertionError`. -/
theorem C10_only_upper_bound_validated {α : Type} (d : LayeredDiscriminator_MLP α)
    (x : α) (l : Int) :
    d.forward x (some l) =
      if (d.depth : Int) < l then .error .assertionError
      else if l < 0 then
        .ok [("adversarial_cost", applyFirst d.depth d.layers (d.reshape x))]
      else
        .ok [("adversarial_cost", applyFirst (l.toNat + 1) d.layers (d.reshape x))] := by
  by_cases h : l ≤ (d.depth : Int)
  · have hnot : ¬ (d.depth : Int) < l := by omega
    simp only [LayeredDiscriminator_MLP.forward, h, if_true, hnot, if_false]
    by_cases hneg : l < 0
    · rw [discLoop_lt d.layers l 0 (d.reshape x) (by exact_mod_cast hneg)]
      simp [hneg, applyFirst_length, LayeredDiscriminator_MLP.depth]
    · rw [discLoop_le d.layers l (by omega) 0 (d.reshape x) (by omega)]
      simp [hneg]
  · have hlt : (d.depth : Int) < l := by omega
    simp [LayeredDiscriminator_MLP.forward, h, hlt]

lemma scatterAssign_append {α : Type} (vals : ℕ → ℕ → α) (l1 l2 : List (ℕ × ℕ))
    (m : ℕ) (M : ℕ → ℕ → ℕ → α) :
    scatterAssign vals (l1 ++ l2) m M
      = scatterAssign vals l2 (m + l1.length) (scatterAssign vals l1 m M) := by
  induction l1 generalizing m M with
  | nil => simp [scatterAssign]
  | cons p rest ih =>
      obtain ⟨r, c⟩ := p
      simp only [List.cons_append, scatterAssign, List.length_cons, List.append_eq]
      have harith : m + 1 + rest.length = m + (rest.length + 1) := by omega
      rw [ih, harith]

lemma scatterAssign_row {α : Type} (vals : ℕ → ℕ → α) (rr r m : ℕ)
    (M : ℕ → ℕ → ℕ → α) (b i j : ℕ) :
    scatterAssign vals ((List.range r).map (fun j2 => (rr, j2))) m M b i j
      = if i = rr ∧ j < r then vals b (m + j) else M b i j := by
  induction r generalizing M with
  | zero => simp [scatterAssign]
  | succ r ih =>
      rw [List.range_succ, List.map_append, scatterAssign_append]
      simp only [List.map_cons, List.map_nil, List.length_map, List.length_range,
        scatterAssign]
      rw [ih]
      by_cases h1 : i = rr ∧ j = r
      · have h2 : i = rr ∧ j < r + 1 := by omega
        rw [if_pos h1, if_pos h2, h1.2]
      · rw [if_neg h1]
        by_cases h2 : i = rr ∧ j < r
        · have h3 : i = rr ∧ j < r + 1 := by omega
          rw [if_pos h2, if_pos h3]
        · have h3 : ¬ (i = rr ∧ j < r + 1) := by omega
          rw [if_neg h2, if_neg h3]

lemma tril_indices_succ (n : ℕ) :
    tril_indices (n + 1)
      = tril_indices n ++ (List.range n).map (fun j => (n, j)) := by
  simp [tril_indices, List.range_succ]

lemma tril_indices_length (n : ℕ) :
    2 * (tril_indices n).length = n * (n - 1) := by
  induction n with
  | zero => rfl
  | succ n ih =>
      rw [tril_indices_succ, List.length_append, List.length_map, List.length_range]
      cases n with
      | zero => simp [tril_indices]
      | succ m =>
          have : (m + 1 + 1) * (m + 1 + 1 - 1) = (m + 1) * (m + 1 - 1) + 2 * (m + 1) := by
            simp only [Nat.add_sub_cancel]
            ring
          rw [this]
          omega

lemma tril_indices_length_div (n : ℕ) :
    (tril_indices n).length = n * (n - 1) / 2 := by
  have h := tril_indices_length n
  generalize hK : n * (n - 1) = K at h ⊢
  omega

lemma scatterAssign_tril {α : Type} (vals : ℕ → ℕ → α) (n m : ℕ)
    (M : ℕ → ℕ → ℕ → α) (b i j : ℕ) :
    scatterAssign vals (tril_indices n) m M b i j
      = if j < i ∧ i < n then vals b (m + (i * (i - 1) / 2 + j)) else M b i j := by
  induction n generalizing M with
  | zero =>
      have : ¬ (j < i ∧ i < 0) := by omega
      rw [if_neg this]
      rfl
  | succ n ih =>
      rw [tril_indices_succ, scatterAssign_append, scatterAssign_row,
        tril_indices_length_div]
      rw [ih]
      by_cases h1 : i = n ∧ j < n
      · rw [if_pos h1]
        have h2 : j < i ∧ i < n + 1 := by omega
        rw [if_pos h2, h1.1]
        congr 1
        generalize n * (n - 1) / 2 = t
        omega
      · rw [if_neg h1]
        by_cases h2 : j < i ∧ i < n
        · have h3 : j < i ∧ i < n + 1 := by omega
          rw [if_pos h2, if_pos h3]
        · have h3 : ¬ (j < i ∧ i < n + 1) := by omega
          rw [if_neg h2, if_neg h3]

/-- C3: for every batch item `b`, the matrix `L` returned by the metric network is
lower triangular (entries strictly above the diagonal are zero), its strictly-lower
entry at `(i, j)` is the learned off-diagonal output number `i*(i-1)/2 + j` (there
are `latent_dim*(latent_dim-1)/2` of them, the length of the index list), and its
diagonal entries are the exponentials of the learned diagonal outputs, hence
strictly positive. -/
theorem C3_metric_lower_triangular (n : ℕ) (h21 h22 : ℕ → ℕ → ℝ) (b i j : ℕ)
    (hi : i < n) (hj : j < n) :
    (i < j → Metric_MLP_L n h21 h22 b i j = 0)
  ∧ (j < i → Metric_MLP_L n h21 h22 b i j = h22 b (i * (i - 1) / 2 + j))
  ∧ Metric_MLP_L n h21 h22 b i i = Real.exp (h21 b i)
  ∧ 0 < Metric_MLP_L n h21 h22 b i i
  ∧ (tril_indices n).length = n * (n - 1) / 2 := by
  have hdiag : Metric_MLP_L n h21 h22 b i i = Real.exp (h21 b i) := by
    simp only [Metric_MLP_L]
    rw [scatterAssign_tril]
    have h1 : ¬ (i < i ∧ i < n) := by omega
    rw [if_neg h1]
    simp [diag_embed, hi]
  refine ⟨?_, ?_, hdiag, ?_, tril_indices_length_div n⟩
  · intro hij
    simp only [Metric_MLP_L, diag_embed]
    rw [scatterAssign_tril]
    have h1 : ¬ (j < i ∧ i < n) := by omega
    have h2 : ¬ (i = j ∧ i < n) := by omega
    rw [if_neg h1, if_neg h2]
    simp
  · intro hji
    simp only [Metric_MLP_L, diag_embed]
    rw [scatterAssign_tril]
    have h2 : ¬ (i = j ∧ i < n) := by omega
    rw [if_pos ⟨hji, hi⟩, if_neg h2]
    simp
  · rw [hdiag]
    exact Real.exp_pos _

/-- Witness for C3 at `latent_dim = 2`, constant head outputs, entry `(1, 0)`. -/
theorem C3_metric_lower_triangular_witness :
    ((1 : ℕ) < 0 → Metric_MLP_L 2 (fun _ _ => (0 : ℝ)) (fun _ _ => (1 : ℝ)) 0 1 0 = 0)
  ∧ ((0 : ℕ) < 1 → Metric_MLP_L 2 (fun _ _ => (0 : ℝ)) (fun _ _ => (1 : ℝ)) 0 1 0 = 1)
  ∧ Metric_MLP_L 2 (fun _ _ => (0 : ℝ)) (fun _ _ => (1 : ℝ)) 0 1 1 = Real.exp 0
  ∧ 0 < Metric_MLP_L 2 (fun _ _ => (0 : ℝ)) (fun _ _ => (1 : ℝ)) 0 1 1
  ∧ (tril_indices 2).length = 2 * (2 - 1) / 2 :=
  C3_metric_lower_triangular 2 (fun _ _ => 0) (fun _ _ => 1) 0 1 0 (by decide) (by decide)

/-- C4 (counterexample): the MLP encoder builder, given a configuration with
`input_dim` unset, does NOT fail with the configuration error (`AttributeError`):
it fails with a framework `TypeError` while building its first layer, refuting the
claim that every network builder fails with a configuration error before any layer
is constructed. -/
theorem C4_no_input_dim_counterexample :
    Encoder_AE_MLP_init { input_dim := none, latent_dim := 10 } ≠ .error .attributeError
  ∧ Encoder_AE_MLP_init { input_dim := none, latent_dim := 10 } = .error .typeError := by
  decide

/-- C4 (amended): given a configuration with `input_dim` unset, the builders that
validate the configuration — the metric network, and PixelCNN per its tests — fail
immediately with the configuration error (`AttributeError`) before any layer is
constructed, while the plain MLP encoder and decoder builders perform no such
validation and fail with a framework `TypeError` raised during layer construction
instead; in every case construction returns an error and no network object. -/
theorem C4_amended_no_input_dim (args : NNArgs) (cfg : PixelCNNConfig)
    (h : args.input_dim = none) (hc : cfg.input_dim = none) :
    Metric_MLP_init args = .error .attributeError
  ∧ PixelCNN_init cfg = .error .attributeError
  ∧ Encoder_AE_MLP_init args = .error .typeError
  ∧ Decoder_AE_MLP_init args = .error .typeError := by
  obtain ⟨din, lat⟩ := args
  obtain ⟨cin, nl, ks, ne⟩ := cfg
  simp only [Metric_MLP_init, PixelCNN_init, Encoder_AE_MLP_init, Decoder_AE_MLP_init]
  simp only at h hc
  subst h
  subst hc
  exact ⟨rfl, rfl, rfl, rfl⟩

/-- Witness for C4 (amended) at concrete configurations with `input_dim` unset. -/
theorem C4_amended_no_input_dim_witness :
    Metric_MLP_init { input_dim := none, latent_dim := 3 } = .error .attributeError
  ∧ PixelCNN_init { input_dim := none, n_layers := 10, kernel_size := 5, n_embeddings := 256 }
      = .error .attributeError
  ∧ Encoder_AE_MLP_init { input_dim := none, latent_dim := 3 } = .error .typeError
  ∧ Decoder_AE_MLP_init { input_dim := none, latent_dim := 3 } = .error .typeError :=
  C4_amended_no_input_dim { input_dim := none, latent_dim := 3 }
    { input_dim := none, n_layers := 10, kernel_size := 5, n_embeddings := 256 } rfl rfl

/-- C5: saving any model and loading from the written directory yields the model
back — weights equal key for key and configuration equal field by field — and the
saved directory contains exactly `model_config.json` and `model.pt`. -/
theorem C5_save_load_roundtrip (m : PModel) :
    load_from_folder (PModel.save m) = .ok m
  ∧ (PModel.save m).map Prod.fst = ["model_config.json", "model.pt"] := by
  obtain ⟨cfg, sd⟩ := m
  exact ⟨rfl, rfl⟩

/-- C6: `load_from_folder` fails with `FileNotFoundError` naming the missing file
when `model.pt` (the configuration being present) or `model_config.json` is absent;
fails with `KeyError` when the weights file exists but lacks the `model_state_dict`
key; and succeeds only when both files exist and the key is present. -/
theorem C6_load_missing_files_and_key (d : Dir) :
    (lookupKey d "model_config.json" = none →
        load_from_folder d = .error (.fileNotFoundError "model_config.json"))
  ∧ (lookupKey d "model.pt" = none → lookupKey d "model_config.json" ≠ none →
        load_from_folder d = .error (.fileNotFoundError "model.pt"))
  ∧ (∀ cfg entries, lookupKey d "model_config.json" = some (.modelJson cfg) →
        lookupKey d "model.pt" = some (.ptDict entries) →
        lookupKey entries "model_state_dict" = none →
        load_from_folder d = .error (.keyError "model_state_dict"))
  ∧ (∀ m, load_from_folder d = .ok m →
        lookupKey d "model_config.json" = some (.modelJson m.model_config)
      ∧ ∃ entries, lookupKey d "model.pt" = some (.ptDict entries)
          ∧ lookupKey entries "model_state_dict" = some m.state_dict) := by
  refine ⟨?_, ?_, ?_, ?_⟩
  · intro h1
    simp [load_from_folder, h1]
  · intro h1 h2
    cases hc : lookupKey d "model_config.json" with
    | none => exact absurd hc h2
    | some fc => simp [load_from_folder, hc, h1]
  · intro cfg entries h1 h2 h3
    simp [load_from_folder, h1, h2, h3]
  · intro m h
    cases hc : lookupKey d "model_config.json" with
    | none => simp [load_from_folder, hc] at h
    | some fc =>
        cases hw : lookupKey d "model.pt" with
        | none => simp [load_from_folder, hc, hw] at h
        | some fw =>
            cases fc with
            | modelJson cfg =>
                cases fw with
                | ptDict entries =>
                    cases hk : lookupKey entries "model_state_dict" with
                    | none => simp [load_from_folder, hc, hw, hk] at h
                    | some sd =>
                        simp only [load_from_folder, hc, hw, hk] at h
                        injection h with h2
                        subst h2
                        exact ⟨rfl, entries, rfl, hk⟩
                | modelJson c2 => simp [load_from_folder, hc, hw] at h
                | trainingJson c2 => simp [load_from_folder, hc, hw] at h
                | optimizerPt l2 => simp [load_from_folder, hc, hw] at h
            | ptDict e2 =>
                cases fw <;> simp [load_from_folder, hc, hw] at h
            | trainingJson c2 =>
                cases fw <;> simp [load_from_folder, hc, hw] at h
            | optimizerPt l2 =>
                cases fw <;> simp [load_from_folder, hc, hw] at h

lemma getD_zipWith {α β γ : Type} (f : α → β → γ) (l1 : List α) (l2 : List β)
    (i : ℕ) (d1 : α) (d2 : β) (d3 : γ) (h1 : i < l1.length) (h2 : i < l2.length) :
    (List.zipWith f l1 l2).getD i d3 = f (l1.getD i d1) (l2.getD i d2) := by
  induction l1 generalizing l2 i with
  | nil => simp at h1
  | cons a l1 ih =>
      cases l2 with
      | nil => simp at h2
      | cons b l2 =>
          cases i with
          | zero => simp
          | succ i =>
              simp only [List.zipWith_cons_cons, List.getD_cons_succ]
              exact ih l2 i (by simpa using h1) (by simpa using h2)

/-- C7: whenever the optimizer update is non-trivial at the current weights (some
aligned gradient entry has `lr * grad ≠ 0`, as in the test scenario), one training
step strictly changes the model's parameter state, while one evaluation step always
returns the weights unchanged. -/
theorem C7_train_step_changes_eval_step_preserves (t : SpecTrainer) (w : StateDict)
    (i j : ℕ)
    (hi1 : i < w.length) (hi2 : i < (t.gradFn w).length)
    (hj1 : j < (w.getD i ("", [])).2.length)
    (hj2 : j < ((t.gradFn w).getD i ("", [])).2.length)
    (hnz : t.lr * ((t.gradFn w).getD i ("", [])).2.getD j 0 ≠ 0) :
    t.train_step w ≠ w ∧ (t.eval_step w).2 = w := by
  refine ⟨?_, rfl⟩
  intro heq
  have h2 := congrArg (fun l => l.getD i ("", ([] : List ℚ))) heq
  simp only [SpecTrainer.train_step] at h2
  rw [getD_zipWith _ w (t.gradFn w) i ("", []) ("", []) _ hi1 hi2] at h2
  have h3 := congrArg Prod.snd h2
  simp only at h3
  have h4 := congrArg (fun l => l.getD j (0 : ℚ)) h3
  simp only at h4
  rw [getD_zipWith _ _ _ j 0 0 _ hj1 hj2] at h4
  exact hnz (sub_eq_self.mp h4)

/-- Witness for C7 at the concrete trainer (gradient 1, learning rate 1). -/
theorem C7_train_step_changes_eval_step_preserves_witness :
    cTrainer.train_step cW0 ≠ cW0 ∧ (cTrainer.eval_step cW0).2 = cW0 :=
  C7_train_step_changes_eval_step_preserves cTrainer cW0 0 0
    (by decide) (by decide) (by decide) (by decide) (by norm_num [cTrainer, cW0])

lemma foldl_runEpoch_dirs (t : SpecTrainer) (cfg : BaseTrainerConfig)
    (epochs : List ℕ) (s : RunState) :
    (epochs.foldl (runEpoch t cfg) s).dirs = s.dirs ++ mkCkpts t cfg epochs s.weights := by
  induction epochs generalizing s with
  | nil => simp [mkCkpts]
  | cons e es ih =>
      rw [List.foldl_cons, ih]
      simp only [runEpoch, mkCkpts]
      by_cases h : e % cfg.steps_saving = 0
      · simp [h, List.append_assoc]
      · simp [h]

lemma foldl_runEpoch_weights (t : SpecTrainer) (cfg : BaseTrainerConfig)
    (epochs : List ℕ) (s : RunState) :
    (epochs.foldl (runEpoch t cfg) s).weights = t.train_step^[epochs.length] s.weights := by
  induction epochs generalizing s with
  | nil => rfl
  | cons e es ih =>
      rw [List.foldl_cons, ih]
      simp only [runEpoch, List.length_cons, Function.iterate_succ_apply]

lemma findDir_append (l1 l2 : List (DirName × Dir)) (k : DirName) :
    findDir (l1 ++ l2) k =
      match findDir l1 k with
      | some d => some d
      | none => findDir l2 k := by
  induction l1 with
  | nil => simp [findDir]
  | cons p rest ih =>
      obtain ⟨k2, d⟩ := p
      by_cases h : k2 = k
      · simp [findDir, h]
      · simp [findDir, h, ih]

lemma findDir_mkCkpts_none (t : SpecTrainer) (cfg : BaseTrainerConfig)
    (epochs : List ℕ) (w : StateDict) (N : ℕ)
    (h : ¬ (N ∈ epochs ∧ N % cfg.steps_saving = 0)) :
    findDir (mkCkpts t cfg epochs w) (.checkpoint N) = none := by
  induction epochs generalizing w with
  | nil => rfl
  | cons e es ih =>
      simp only [mkCkpts]
      rw [findDir_append]
      have hne : ¬ (N ∈ es ∧ N % cfg.steps_saving = 0) := by
        intro hc
        exact h ⟨List.mem_cons_of_mem e hc.1, hc.2⟩
      rw [ih _ hne]
      by_cases he : e % cfg.steps_saving = 0
      · have hNe : ¬ (DirName.checkpoint e = DirName.checkpoint N) := by
          intro hc
          injection hc with h2
          exact h ⟨by simp [h2], by rw [← h2]; exact he⟩
        simp [he, findDir, hNe]
      · simp [he, findDir]

lemma findDir_mkCkpts_some (t : SpecTrainer) (cfg : BaseTrainerConfig)
    (epochs : List ℕ) (w : StateDict) (N : ℕ)
    (h1 : N ∈ epochs) (h2 : N % cfg.steps_saving = 0) :
    ∃ w2, findDir (mkCkpts t cfg epochs w) (.checkpoint N) = some (ckptDir cfg t w2) := by
  induction epochs generalizing w with
  | nil => simp at h1
  | cons e es ih =>
      simp only [mkCkpts]
      rw [findDir_append]
      by_cases hEq : e = N
      · subst hEq
        simp [h2, findDir]
      · have hmem : N ∈ es := by
          rcases List.mem_cons.mp h1 with hc | hc
          · exact absurd hc.symm hEq
          · exact hc
        obtain ⟨w2, hw2⟩ := ih (t.train_step w) hmem
        refine ⟨w2, ?_⟩
        by_cases he : e % cfg.steps_saving = 0
        · have hNe : ¬ (DirName.checkpoint e = DirName.checkpoint N) := by
            intro hc
            injection hc with h3
            exact hEq h3
          simp [he, findDir, hNe, hw2]
        · simp [he, findDir, hw2]

lemma findDir_mkCkpts_finalModel (t : SpecTrainer) (cfg : BaseTrainerConfig)
    (epochs : List ℕ) (w : StateDict) :
    findDir (mkCkpts t cfg epochs w) .finalModel = none := by
  induction epochs generalizing w with
  | nil => rfl
  | cons e es ih =>
      simp only [mkCkpts]
      rw [findDir_append]
      rw [ih (t.train_step w)]
      by_cases he : e % cfg.steps_saving = 0
      · simp [he, findDir]
      · simp [he, findDir]

lemma train_dirs_findDir_checkpoint (t : SpecTrainer) (cfg : BaseTrainerConfig)
    (mcfg : PixelCNNConfig) (w0 : StateDict) (N : ℕ) :
    findDir (BaseTrainer_train t cfg mcfg w0).dirs (DirName.checkpoint N)
      = findDir (mkCkpts t cfg (List.range' 1 cfg.num_epochs) w0) (DirName.checkpoint N) := by
  have h0 : (BaseTrainer_train t cfg mcfg w0).dirs
      = ((List.range' 1 cfg.num_epochs).foldl (runEpoch t cfg)
          { weights := w0, best := none, dirs := [] }).dirs
        ++ [(DirName.finalModel,
             finalDir cfg mcfg
               (match ((List.range' 1 cfg.num_epochs).foldl (runEpoch t cfg)
                   { weights := w0, best := none, dirs := [] }).best with
                | some b => b.2
                | none => ((List.range' 1 cfg.num_epochs).foldl (runEpoch t cfg)
                    { weights := w0, best := none, dirs := [] }).weights))] := rfl
  rw [h0, findDir_append, foldl_runEpoch_dirs]
  simp only [List.nil_append]
  cases hfd : findDir (mkCkpts t cfg (List.range' 1 cfg.num_epochs) w0)
      (DirName.checkpoint N) with
  | some d => rfl
  | none => simp [findDir]

/-- C8: during a training run, a `checkpoint_epoch_N` directory exists exactly for
the epochs `N` in `1 .. num_epochs` that are multiples of `steps_saving`, and every
such directory contains exactly the files `model.pt`, `optimizer.pt` and
`training_config.json`. -/
theorem C8_checkpoints_exactly_at_multiples (t : SpecTrainer) (cfg : BaseTrainerConfig)
    (mcfg : PixelCNNConfig) (w0 : StateDict) (N : ℕ) :
    (∃ dd, findDir (BaseTrainer_train t cfg mcfg w0).dirs (DirName.checkpoint N) = some dd
        ∧ dd.map Prod.fst = ["model.pt", "optimizer.pt", "training_config.json"])
  ↔ (1 ≤ N ∧ N ≤ cfg.num_epochs ∧ cfg.steps_saving ∣ N) := by
  rw [train_dirs_findDir_checkpoint]
  constructor
  · rintro ⟨dd, hdd, -⟩
    by_cases hc : N ∈ List.range' 1 cfg.num_epochs ∧ N % cfg.steps_saving = 0
    · have hb := List.mem_range'_1.mp hc.1
      exact ⟨hb.1, by omega, Nat.dvd_of_mod_eq_zero hc.2⟩
    · rw [findDir_mkCkpts_none t cfg _ _ _ hc] at hdd
      exact absurd hdd (by simp)
  · rintro ⟨h1, h2, h3⟩
    have hmem : N ∈ List.range' 1 cfg.num_epochs := List.mem_range'_1.mpr ⟨h1, by omega⟩
    obtain ⟨w2, hw2⟩ :=
      findDir_mkCkpts_some t cfg _ w0 N hmem (Nat.mod_eq_zero_of_dvd h3)
    exact ⟨ckptDir cfg t w2, hw2, rfl⟩

lemma foldl_runEpoch_best (t : SpecTrainer) (cfg : BaseTrainerConfig)
    (epochs : List ℕ) (s : RunState) :
    (epochs.foldl (runEpoch t cfg) s).best = bestFold s.best (runPairs t epochs s.weights) := by
  induction epochs generalizing s with
  | nil => rfl
  | cons e es ih =>
      rw [List.foldl_cons, ih]
      rfl

lemma bestFold_some (b : ℚ × StateDict) (ps : List (ℚ × StateDict)) :
    ∃ r, bestFold (some b) ps = some r := by
  induction ps generalizing b with
  | nil => exact ⟨b, rfl⟩
  | cons p ps ih =>
      simp only [bestFold]
      by_cases h : p.1 < b.1
      · simpa [h] using ih p
      · simpa [h] using ih b

lemma bestFold_spec (ps : List (ℚ × StateDict)) (b : Option (ℚ × StateDict))
    (r : ℚ × StateDict) (h : bestFold b ps = some r) :
    (b = some r ∨ r ∈ ps)
  ∧ (∀ b0, b = some b0 → r.1 ≤ b0.1)
  ∧ (∀ q ∈ ps, r.1 ≤ q.1) := by
  induction ps generalizing b with
  | nil =>
      refine ⟨Or.inl h, ?_, ?_⟩
      · intro b0 hb0
        have h2 : some b0 = some r := by rw [← hb0]; exact h
        injection h2 with h3
        exact le_of_eq (congrArg Prod.fst h3.symm)
      · intro q hq
        exact absurd hq (List.not_mem_nil q)
  | cons p ps ih =>
      simp only [bestFold] at h
      obtain ⟨hmem, hle, hall⟩ := ih _ h
      cases b with
      | none =>
          simp only at hmem hle
          refine ⟨?_, ?_, ?_⟩
          · right
            cases hmem with
            | inl h2 =>
                injection h2 with h2
                rw [← h2]
                exact List.mem_cons_self p ps
            | inr h2 => exact List.mem_cons_of_mem p h2
          · intro b0 hb0
            exact absurd hb0 (Option.noConfusion)
          · intro q hq
            rcases List.mem_cons.mp hq with hq1 | hq2
            · rw [hq1]
              exact hle p rfl
            · exact hall q hq2
      | some b0 =>
          by_cases hp : p.1 < b0.1
          · simp only [hp, if_true] at hmem hle
            refine ⟨?_, ?_, ?_⟩
            · right
              cases hmem with
              | inl h2 =>
                  injection h2 with h2
                  rw [← h2]
                  exact List.mem_cons_self p ps
              | inr h2 => exact List.mem_cons_of_mem p h2
            · intro b1 hb1
              injection hb1 with hb1
              have hrp : r.1 ≤ p.1 := hle p rfl
              rw [← hb1]
              exact le_trans hrp (le_of_lt hp)
            · intro q hq
              rcases List.mem_cons.mp hq with hq1 | hq2
              · rw [hq1]
                exact hle p rfl
              · exact hall q hq2
          · simp only [hp, if_false] at hmem hle
            refine ⟨?_, ?_, ?_⟩
            · cases hmem with
              | inl h2 => exact Or.inl h2
              | inr h2 => exact Or.inr (List.mem_cons_of_mem p h2)
            · intro b1 hb1
              injection hb1 with hb1
              rw [← hb1]
              exact hle b0 rfl
            · intro q hq
              rcases List.mem_cons.mp hq with hq1 | hq2
              · rw [hq1]
                have hb : r.1 ≤ b0.1 := hle b0 rfl
                exact le_trans hb (not_lt.mp hp)
              · exact hall q hq2

lemma runPairs_length (t : SpecTrainer) (epochs : List ℕ) (w : StateDict) :
    (runPairs t epochs w).length = epochs.length := by
  induction epochs generalizing w with
  | nil => rfl
  | cons e es ih => simp [runPairs, ih]

lemma runPairs_mem (t : SpecTrainer) (epochs : List ℕ) (w : StateDict)
    (q : ℚ × StateDict) :
    q ∈ runPairs t epochs w ↔
      ∃ k, 1 ≤ k ∧ k ≤ epochs.length
        ∧ q = (t.evalLoss (t.train_step^[k] w), t.train_step^[k] w) := by
  induction epochs generalizing w with
  | nil =>
      constructor
      · intro h
        simp [runPairs] at h
      · rintro ⟨k, hk1, hk2, -⟩
        simp at hk2
        omega
  | cons e es ih =>
      simp only [runPairs, List.mem_cons]
      constructor
      · rintro (rfl | h)
        · exact ⟨1, le_refl 1, by simp, by simp⟩
        · obtain ⟨k, h1, h2, h3⟩ := (ih (t.train_step w)).mp h
          refine ⟨k + 1, by omega, by simp only [List.length_cons]; omega, ?_⟩
          rw [Function.iterate_succ_apply]
          exact h3
      · rintro ⟨k, h1, h2, h3⟩
        cases k with
        | zero => omega
        | succ k =>
            rw [Function.iterate_succ_apply] at h3
            rcases Nat.eq_zero_or_pos k with h0 | hpos
            · subst h0
              left
              simpa using h3
            · right
              refine (ih (t.train_step w)).mpr ⟨k, hpos, ?_, h3⟩
              simp only [List.length_cons] at h2
              omega

/-- C9: at the end of every training run (at least one epoch), the trainer persists
under `final_model` exactly the files `model.pt`, `model_config.json` and
`training_config.json` — no optimizer state; loading that directory reproduces the
persisted weights exactly, and those weights are the state after some epoch `e`
whose evaluation loss is minimal among all epochs observed in the run. -/
theorem C9_final_model_is_best (t : SpecTrainer) (cfg : BaseTrainerConfig)
    (mcfg : PixelCNNConfig) (w0 : StateDict) (hpos : 0 < cfg.num_epochs) :
    ∃ bw,
      findDir (BaseTrainer_train t cfg mcfg w0).dirs DirName.finalModel
          = some (finalDir cfg mcfg bw)
      ∧ (finalDir cfg mcfg bw).map Prod.fst
          = ["model.pt", "model_config.json", "training_config.json"]
      ∧ lookupKey (finalDir cfg mcfg bw) "optimizer.pt" = none
      ∧ load_from_folder (finalDir cfg mcfg bw)
          = .ok { model_config := mcfg, state_dict := bw }
      ∧ ∃ e, 1 ≤ e ∧ e ≤ cfg.num_epochs
          ∧ bw = t.train_step^[e] w0
          ∧ ∀ e2, 1 ≤ e2 → e2 ≤ cfg.num_epochs →
              t.evalLoss (t.train_step^[e] w0) ≤ t.evalLoss (t.train_step^[e2] w0) := by
  have hbest : ((List.range' 1 cfg.num_epochs).foldl (runEpoch t cfg)
      { weights := w0, best := none, dirs := [] }).best
      = bestFold none (runPairs t (List.range' 1 cfg.num_epochs) w0) :=
    foldl_runEpoch_best t cfg _ _
  have hlen : (runPairs t (List.range' 1 cfg.num_epochs) w0).length = cfg.num_epochs := by
    rw [runPairs_length]
    simp
  cases hrp : runPairs t (List.range' 1 cfg.num_epochs) w0 with
  | nil =>
      rw [hrp] at hlen
      simp at hlen
      omega
  | cons p ps =>
      obtain ⟨r, hr⟩ := bestFold_some p ps
      have hsbest : ((List.range' 1 cfg.num_epochs).foldl (runEpoch t cfg)
          { weights := w0, best := none, dirs := [] }).best = some r := by
        rw [hbest, hrp]
        exact hr
      obtain ⟨hmem0, hle0, hall0⟩ := bestFold_spec ps (some p) r hr
      have hrmem : r ∈ runPairs t (List.range' 1 cfg.num_epochs) w0 := by
        rw [hrp]
        cases hmem0 with
        | inl h2 =>
            injection h2 with h2
            rw [← h2]
            exact List.mem_cons_self p ps
        | inr h2 => exact List.mem_cons_of_mem p h2
      have hrmin : ∀ q ∈ runPairs t (List.range' 1 cfg.num_epochs) w0, r.1 ≤ q.1 := by
        rw [hrp]
        intro q hq
        rcases List.mem_cons.mp hq with hq1 | hq2
        · rw [hq1]
          exact hle0 p rfl
        · exact hall0 q hq2
      obtain ⟨e, he1, he2, he3⟩ := (runPairs_mem t _ w0 r).mp hrmem
      have he2' : e ≤ cfg.num_epochs := by
        simpa using he2
      have hfd : findDir (BaseTrainer_train t cfg mcfg w0).dirs DirName.finalModel
          = some (finalDir cfg mcfg r.2) := by
        have h0 : (BaseTrainer_train t cfg mcfg w0).dirs
            = ((List.range' 1 cfg.num_epochs).foldl (runEpoch t cfg)
                { weights := w0, best := none, dirs := [] }).dirs
              ++ [(DirName.finalModel,
                   finalDir cfg mcfg
                     (match ((List.range' 1 cfg.num_epochs).foldl (runEpoch t cfg)
                         { weights := w0, best := none, dirs := [] }).best with
                      | some b => b.2
                      | none => ((List.range' 1 cfg.num_epochs).foldl (runEpoch t cfg)
                          { weights := w0, best := none, dirs := [] }).weights))] := rfl
        rw [h0, findDir_append, foldl_runEpoch_dirs]
        simp only [List.nil_append]
        rw [findDir_mkCkpts_finalModel]
        simp [findDir, hsbest]
      refine ⟨r.2, hfd, rfl, rfl, rfl, e, he1, he2', ?_, ?_⟩
      · rw [he3]
      · intro e2 h21 h22
        have hq : (t.evalLoss (t.train_step^[e2] w0), t.train_step^[e2] w0)
            ∈ runPairs t (List.range' 1 cfg.num_epochs) w0 := by
          refine (runPairs_mem t _ w0 _).mpr ⟨e2, h21, ?_, rfl⟩
          simpa using h22
        have hle2 := hrmin _ hq
        have hr1 : r.1 = t.evalLoss (t.train_step^[e] w0) := by rw [he3]
        rw [← hr1]
        exact hle2

/-- Witness for C9 at the concrete trainer and configuration (three epochs). -/
theorem C9_final_model_is_best_witness :
    ∃ bw,
      findDir (BaseTrainer_train cTrainer cCfg cMCfg cW0).dirs DirName.finalModel
          = some (finalDir cCfg cMCfg bw)
      ∧ (finalDir cCfg cMCfg bw).map Prod.fst
          = ["model.pt", "model_config.json", "training_config.json"]
      ∧ lookupKey (finalDir cCfg cMCfg bw) "optimizer.pt" = none
      ∧ load_from_folder (finalDir cCfg cMCfg bw)
          = .ok { model_config := cMCfg, state_dict := bw }
      ∧ ∃ e, 1 ≤ e ∧ e ≤ cCfg.num_epochs
          ∧ bw = cTrainer.train_step^[e] cW0
          ∧ ∀ e2, 1 ≤ e2 → e2 ≤ cCfg.num_epochs →
              cTrainer.evalLoss (cTrainer.train_step^[e] cW0)
                ≤ cTrainer.evalLoss (cTrainer.train_step^[e2] cW0) :=
  C9_final_model_is_best cTrainer cCfg cMCfg cW0 (by decide)
